import Mathlib

/-!
Shallow embedding of the editor-panel session controller
(`src/web/src/components/EditorPanel.tsx`) and its two pure helpers
(`hasChangedDescendant`, the `DiffView` line classifier), together with
proofs of the specified properties.
-/

namespace Companion

/-! ### File-tree model and change propagation -/

/-- `TreeNode.type` in the source is the string `"file"` or `"directory"`. -/
inductive NodeType where
  | file
  | directory
deriving DecidableEq, Repr

/-- A file-tree node: `{ name, path, type, children? }`.  `children` is an
optional array (absent on file nodes, present — possibly empty — on
directories). -/
inductive TreeNode where
  | mk (name : String) (path : String) (type : NodeType)
      (children : Option (List TreeNode)) : TreeNode
deriving Repr

def TreeNode.name : TreeNode → String
  | .mk n _ _ _ => n

def TreeNode.path : TreeNode → String
  | .mk _ p _ _ => p

def TreeNode.type : TreeNode → NodeType
  | .mk _ _ t _ => t

def TreeNode.children : TreeNode → Option (List TreeNode)
  | .mk _ _ _ c => c

mutual

/-- `hasChangedDescendant(node, changedFiles)`: true when the node's own path
is in the changed set, otherwise recurses into `children` when that array is
present (`node.children.some(child => hasChangedDescendant(child, ...))`). -/
def hasChangedDescendant (node : TreeNode) (changedFiles : List String) : Bool :=
  if changedFiles.contains node.path then true
  else
    match h : node.children with
    | some cs => anyChangedChild cs changedFiles
    | none => false
termination_by sizeOf node
decreasing_by
  simp_wf
  cases node with
  | mk n p t ch =>
    simp [TreeNode.children] at h
    subst h
    simp
    omega

/-- `Array.prototype.some` over the children, short-circuiting on `||`. -/
def anyChangedChild (l : List TreeNode) (changedFiles : List String) : Bool :=
  match l with
  | [] => false
  | c :: cs => hasChangedDescendant c changedFiles || anyChangedChild cs changedFiles
termination_by sizeOf l
decreasing_by
  all_goals simp_wf
  all_goals omega

end

mutual

/-- All paths in the subtree rooted at `node` (the node itself included). -/
def subtreePaths (node : TreeNode) : List String :=
  node.path ::
    (match h : node.children with
     | some cs => subtreePathsList cs
     | none => [])
termination_by sizeOf node
decreasing_by
  simp_wf
  cases node with
  | mk n p t ch =>
    simp [TreeNode.children] at h
    subst h
    simp
    omega

def subtreePathsList (l : List TreeNode) : List String :=
  match l with
  | [] => []
  | c :: cs => subtreePaths c ++ subtreePathsList cs
termination_by sizeOf l
decreasing_by
  all_goals simp_wf
  all_goals omega

end

/-- `node.type === "directory"`. -/
def TreeNode.isDir (node : TreeNode) : Bool :=
  node.type = NodeType.directory

/-- The changed indicator a tree row displays:
`isChanged = !isDir && changedFiles.has(path)` or
`hasChanged = isDir && hasChangedDescendant(node, changedFiles)`. -/
def nodeChangedIndicator (node : TreeNode) (changedFiles : List String) : Bool :=
  (!node.isDir && changedFiles.contains node.path) ||
    (node.isDir && hasChangedDescendant node changedFiles)

/-! ### Diff renderer (`DiffView`) -/

/-- The display category a diff line is classified into. -/
inductive DiffCategory where
  | addition
  | deletion
  | hunkHeader
  | metadata
  | context
deriving DecidableEq, Repr

/-- `diff.split("\n")`, modelled on character lists: split into lines at each
newline.  The empty text yields one empty line, a trailing newline a trailing
empty line — exactly `String.prototype.split`. -/
def splitLines : List Char → List (List Char)
  | [] => [[]]
  | c :: cs =>
    if c = '\n' then [] :: splitLines cs
    else
      match splitLines cs with
      | [] => [[c]]
      | l :: ls => (c :: l) :: ls

/-- Re-join lines with `'\n'` separators (the inverse of `splitLines`). -/
def joinLines : List (List Char) → List Char
  | [] => []
  | [l] => l
  | l :: l' :: ls => l ++ '\n' :: joinLines (l' :: ls)

/-- `line.startsWith(pat)` on character lists. -/
def startsWithCh : List Char → List Char → Bool
  | _, [] => true
  | [], _ :: _ => false
  | a :: as, b :: bs => a = b && startsWithCh as bs

/-- The `DiffView` per-line classification cascade, first match wins:
`+` (not `+++`) → addition; `-` (not `---`) → deletion; `@@` → hunk header;
`diff`/`index` → metadata; otherwise context. -/
def classifyLine (line : List Char) : DiffCategory :=
  if startsWithCh line ['+'] && !startsWithCh line ['+', '+', '+'] then
    DiffCategory.addition
  else if startsWithCh line ['-'] && !startsWithCh line ['-', '-', '-'] then
    DiffCategory.deletion
  else if startsWithCh line ['@', '@'] then
    DiffCategory.hunkHeader
  else if startsWithCh line ['d', 'i', 'f', 'f'] ||
      startsWithCh line ['i', 'n', 'd', 'e', 'x'] then
    DiffCategory.metadata
  else
    DiffCategory.context

/-- `diff.split("\n")` with each line paired with its category. -/
def classifyLines (d : List Char) : List (List Char × DiffCategory) :=
  (splitLines d).map (fun l => (l, classifyLine l))

/-- What `DiffView` renders. -/
inductive DiffRender where
  | noChanges
  | classified (ls : List (List Char × DiffCategory))
deriving DecidableEq, Repr

/-- `DiffView`: `if (!diff)` renders the "No changes" indicator, otherwise the
classified line list. -/
def diffView (diff : String) : DiffRender :=
  if diff = "" then DiffRender.noChanges
  else DiffRender.classified (classifyLines diff.toList)

/-! ### Editor session controller state machine -/

/-- The debounce delay of the auto-save timer (`setTimeout(..., 800)`). -/
def saveDebounceMs : Nat := 800

/-- How long the "Saved" indicator stays up (`setTimeout(..., 2000)`). -/
def savedDisplayMs : Nat := 2000

/-- Buffer content shown when `readFile` rejects. -/
def errorLoadingSentinel : String := "// Error loading file"

/-- The `saveStatus` phases; the TS type is
`"saved" | "saving" | "dirty" | null`, modelled as `Option SaveStatus`. -/
inductive SaveStatus where
  | saved
  | saving
  | dirty
deriving DecidableEq, Repr

/-- A pending (or issued) save: the values the `handleChange` closure captured
when the timer was armed.  `path` mirrors the nullable `openFilePath`
variable the closure closes over. -/
structure PendingSave where
  path : Option String
  value : String
  delayMs : Nat
deriving DecidableEq, Repr

/-- The controller's local state (`useState`/`useRef` fields of
`EditorPanel`), plus the store slice it reads (`changedFiles`). -/
structure EditorState where
  openFilePath : Option String
  fileContent : String
  savedContent : String
  fileLoading : Bool
  saveStatus : Option SaveStatus
  diffMode : Bool
  diffContent : String
  diffLoading : Bool
  changedFiles : List String
  pendingSave : Option PendingSave
  inflightWrite : Option PendingSave
  statusTimer : Option Nat
deriving DecidableEq, Repr

/-- Calls issued to the repository service (`api`). -/
inductive Action where
  | readFile (path : String)
  | writeFile (path : Option String) (content : String)
  | getFileDiff (path : String)
deriving DecidableEq, Repr

/-- Externally observable happenings the controller reacts to: store changes,
user input, timer firings and promise resolutions. -/
inductive Event where
  | selectFile (path : Option String)
  | loadOk (content : String)
  | loadErr
  | edit (value : String)
  | saveTimerFire
  | writeOk
  | writeErr
  | statusTimerFire
  | setDiffMode (b : Bool)
  | diffOk (d : String)
  | diffErr
deriving DecidableEq, Repr

/-- One reaction step of `EditorPanel`: the state after the event and the
repository-service calls it issues.

* `selectFile p` — the store's `openFilePath` changed: the diff-mode reset
  effect runs `setDiffMode(false)`; the file-load effect returns early on a
  null path, otherwise sets `fileLoading`, resets `saveStatus` to null and
  issues `readFile`.
* `loadOk`/`loadErr` — the `readFile` promise settles: success stores the
  content in both `fileContent` and `savedContent`; failure stores the
  sentinel buffer and an empty `savedContent`; both clear `fileLoading`.
* `edit v` — `handleChange`: buffer and `saveStatus = dirty` update at once,
  the pending timer is cleared (`clearTimeout`), and — only when
  `openFilePath` is non-null — a new timer is armed for `saveDebounceMs`
  capturing the current `openFilePath` and `v`.
* `saveTimerFire` — an armed debounce timer elapses: status `saving`, and
  `writeFile` is issued with the captured path and value.
* `writeOk`/`writeErr` — the write promise settles: success copies the
  captured value into `savedContent`, shows `saved` and arms the
  `savedDisplayMs` status timer; failure reverts the status to `dirty` and
  touches nothing else.
* `statusTimerFire` — the display timer elapses: `setSaveStatus(null)`.
* `setDiffMode b` — the toggle buttons; the diff-fetch effect issues
  `getFileDiff` when diff mode turns on for an open, changed file.
* `diffOk`/`diffErr` — the diff promise settles: failure caches an empty
  diff (`setDiffContent("")`); both clear `diffLoading`. -/
def step (s : EditorState) : Event → EditorState × List Action
  | .selectFile p =>
    match p with
    | some q =>
      ({ s with openFilePath := p, diffMode := false,
                fileLoading := true, saveStatus := none }, [Action.readFile q])
    | none => ({ s with openFilePath := p, diffMode := false }, [])
  | .loadOk c =>
    ({ s with fileContent := c, savedContent := c, fileLoading := false }, [])
  | .loadErr =>
    ({ s with fileContent := errorLoadingSentinel, savedContent := "",
              fileLoading := false }, [])
  | .edit v =>
    match s.openFilePath with
    | none =>
      ({ s with fileContent := v, saveStatus := some SaveStatus.dirty,
                pendingSave := none }, [])
    | some _ =>
      ({ s with fileContent := v, saveStatus := some SaveStatus.dirty,
                pendingSave := some ⟨s.openFilePath, v, saveDebounceMs⟩ }, [])
  | .saveTimerFire =>
    match s.pendingSave with
    | none => (s, [])
    | some t =>
      ({ s with pendingSave := none, saveStatus := some SaveStatus.saving,
                inflightWrite := some t }, [Action.writeFile t.path t.value])
  | .writeOk =>
    match s.inflightWrite with
    | none => (s, [])
    | some t =>
      ({ s with savedContent := t.value, saveStatus := some SaveStatus.saved,
                statusTimer := some savedDisplayMs, inflightWrite := none }, [])
  | .writeErr =>
    match s.inflightWrite with
    | none => (s, [])
    | some _ =>
      ({ s with saveStatus := some SaveStatus.dirty, inflightWrite := none }, [])
  | .statusTimerFire =>
    match s.statusTimer with
    | none => (s, [])
    | some _ => ({ s with saveStatus := none, statusTimer := none }, [])
  | .setDiffMode b =>
    match b, s.openFilePath with
    | true, some q =>
      if s.changedFiles.contains q then
        ({ s with diffMode := true, diffLoading := true }, [Action.getFileDiff q])
      else ({ s with diffMode := true }, [])
    | true, none => ({ s with diffMode := true }, [])
    | false, _ => ({ s with diffMode := false }, [])
  | .diffOk d => ({ s with diffContent := d, diffLoading := false }, [])
  | .diffErr => ({ s with diffContent := "", diffLoading := false }, [])

/-- Run a sequence of events, accumulating the issued service calls. -/
def run (s : EditorState) : List Event → EditorState × List Action
  | [] => (s, [])
  | e :: es =>
    let r := step s e
    let r' := run r.1 es
    (r'.1, r.2 ++ r'.2)

/-- `isDirty = fileContent !== savedContent && openFilePath !== null`. -/
def isDirty (s : EditorState) : Bool :=
  s.fileContent != s.savedContent && s.openFilePath.isSome

/-! ### Session host: relative changed-file list -/

/-- Relative label of a changed path:
`fp.startsWith(cwd + "/") ? fp.slice(cwd.length + 1) : fp`, modelled on the
character sequences underlying the strings. -/
def relPath (cwd fp : String) : String :=
  if (cwd.data ++ ['/']).isPrefixOf fp.data then
    String.mk (fp.data.drop (cwd.data.length + 1))
  else fp

/-- The `relativeChangedFiles` memo: empty when the changed set is empty or
the working directory is unavailable (falsy); otherwise each absolute path
paired with its relative label, sorted by the relative label.  JS `Set`
iteration order is insertion order, modelled by the input list; the
`localeCompare` sort is modelled as the lexicographic order on strings. -/
def relativeChangedFiles (changedFiles : List String) (cwd : String) :
    List (String × String) :=
  if changedFiles.isEmpty || cwd = "" then []
  else
    (changedFiles.map (fun fp => (fp, relPath cwd fp))).insertionSort
      (fun a b => a.2 ≤ b.2)

instance : IsTotal (String × String) (fun a b => a.2 ≤ b.2) :=
  ⟨fun a b => le_total a.2 b.2⟩

instance : IsTrans (String × String) (fun a b => a.2 ≤ b.2) :=
  ⟨fun _ _ _ h h' => le_trans h h'⟩

/-! ### Theorems -/

mutual

theorem hasChanged_eq_any (node : TreeNode) (C : List String) :
    hasChangedDescendant node C = (subtreePaths node).any (fun q => C.contains q) := by
  cases node with
  | mk n p t ch =>
    cases ch with
    | none =>
      simp only [hasChangedDescendant, subtreePaths, TreeNode.path, TreeNode.children,
        List.any_cons, List.any_nil]
      cases hc : C.contains p <;> simp [hc]
    | some cs =>
      have hrec := anyChanged_eq_any cs C
      simp only [hasChangedDescendant, subtreePaths, TreeNode.path, TreeNode.children,
        List.any_cons, hrec]
      cases hc : C.contains p <;> simp [hc]
termination_by sizeOf node
decreasing_by
  simp
  omega

theorem anyChanged_eq_any (l : List TreeNode) (C : List String) :
    anyChangedChild l C = (subtreePathsList l).any (fun q => C.contains q) := by
  cases l with
  | nil => simp [anyChangedChild, subtreePathsList]
  | cons c cs =>
    have h1 := hasChanged_eq_any c C
    have h2 := anyChanged_eq_any cs C
    simp [anyChangedChild, subtreePathsList, h1, h2]
termination_by sizeOf l
decreasing_by
  all_goals simp
  all_goals omega

end

/-- **C2.** The changed indicator on a file node is membership of its path in
the changed set; on a directory node it holds iff some node of its subtree
(itself included) has its path in the set; a directory without children is
unchanged unless its own path is listed. -/
theorem claim_C2_changed_propagation (node : TreeNode) (C : List String) :
    (hasChangedDescendant node C = (subtreePaths node).any (fun q => C.contains q)) ∧
    (node.type = NodeType.file →
      nodeChangedIndicator node C = C.contains node.path) ∧
    (node.type = NodeType.directory →
      (nodeChangedIndicator node C = true ↔ ∃ q ∈ subtreePaths node, C.contains q = true)) ∧
    (node.type = NodeType.directory → (node.children = none ∨ node.children = some []) →
      nodeChangedIndicator node C = C.contains node.path) := by
  refine ⟨hasChanged_eq_any node C, ?_, ?_, ?_⟩
  · intro hfile
    simp [nodeChangedIndicator, TreeNode.isDir, hfile]
  · intro hdir
    simp only [nodeChangedIndicator, TreeNode.isDir, hdir]
    rw [hasChanged_eq_any node C]
    simp [List.any_eq_true]
  · intro hdir hch
    simp only [nodeChangedIndicator, TreeNode.isDir, hdir]
    cases node with
    | mk n p t c =>
      simp only [TreeNode.children] at hch
      simp only [TreeNode.path]
      rcases hch with h | h <;>
        · subst h
          simp only [hasChangedDescendant, TreeNode.path, TreeNode.children, anyChangedChild]
          cases hc : C.contains p <;> simp [hc]

/-- Closed instance of `claim_C2_changed_propagation`: a directory `/repo`
whose single child file `/repo/a.ts` is in the changed set shows the
indicator, and on a file node the indicator is plain membership. -/
theorem claim_C2_changed_propagation_witness :
    nodeChangedIndicator
      (TreeNode.mk "repo" "/repo" NodeType.directory
        (some [TreeNode.mk "a.ts" "/repo/a.ts" NodeType.file none]))
      ["/repo/a.ts"] = true ∧
    nodeChangedIndicator (TreeNode.mk "a.ts" "/repo/a.ts" NodeType.file none)
      ["/repo/a.ts"] = List.contains ["/repo/a.ts"] "/repo/a.ts" := by
  constructor
  · exact ((claim_C2_changed_propagation
      (TreeNode.mk "repo" "/repo" NodeType.directory
        (some [TreeNode.mk "a.ts" "/repo/a.ts" NodeType.file none]))
      ["/repo/a.ts"]).2.2.1 rfl).mpr
      ⟨"/repo/a.ts",
        by simp [subtreePaths, subtreePathsList, TreeNode.path, TreeNode.children],
        by decide⟩
  · exact (claim_C2_changed_propagation
      (TreeNode.mk "a.ts" "/repo/a.ts" NodeType.file none) ["/repo/a.ts"]).2.1 rfl

theorem splitLines_ne_nil (cs : List Char) : splitLines cs ≠ [] := by
  cases cs with
  | nil => simp [splitLines]
  | cons c cs =>
    simp only [splitLines]
    split
    · simp
    · split <;> simp

theorem joinLines_splitLines (cs : List Char) : joinLines (splitLines cs) = cs := by
  induction cs with
  | nil => simp [splitLines, joinLines]
  | cons c cs ih =>
    by_cases hc : c = '\n'
    · subst hc
      simp only [splitLines, if_pos rfl]
      cases h : splitLines cs with
      | nil => exact absurd h (splitLines_ne_nil cs)
      | cons l ls =>
        rw [h] at ih
        simpa [joinLines] using ih
    · simp only [splitLines, if_neg hc]
      cases h : splitLines cs with
      | nil => exact absurd h (splitLines_ne_nil cs)
      | cons l ls =>
        rw [h] at ih
        cases ls with
        | nil =>
          simp only [joinLines] at ih ⊢
          rw [ih]
        | cons l' ls' =>
          simp only [joinLines] at ih ⊢
          rw [List.cons_append, ih]

/-- **C3.** Splitting preserves line order and count (`joinLines` of the
classified texts reproduces the input, and the texts are exactly the split),
each line carries the category of the first matching classification rule,
and the five-line example diff classifies as metadata, hunk header, context,
deletion, addition. -/
theorem claim_C3_diff_line_classification (d : List Char) (hd : d ≠ []) :
    joinLines ((classifyLines d).map Prod.fst) = d ∧
    (classifyLines d).map Prod.fst = splitLines d ∧
    (classifyLines d).length = (splitLines d).length ∧
    (∀ p ∈ classifyLines d, p.2 = classifyLine p.1) ∧
    (classifyLines
        ("diff --git a/f.ts b/f.ts\n@@ -1,2 +1,2 @@\n context\n-removed\n+added".toList)).map
        Prod.snd =
      [DiffCategory.metadata, DiffCategory.hunkHeader, DiffCategory.context,
        DiffCategory.deletion, DiffCategory.addition] := by
  have hfst : (classifyLines d).map Prod.fst = splitLines d := by
    simp only [classifyLines, List.map_map]
    exact List.map_id _ ▸ rfl
  refine ⟨?_, hfst, ?_, ?_, ?_⟩
  · rw [hfst]
    exact joinLines_splitLines d
  · simp [classifyLines]
  · intro p hp
    simp only [classifyLines, List.mem_map] at hp
    obtain ⟨l, _, rfl⟩ := hp
    rfl
  · decide

/-- Closed instance of `claim_C3_diff_line_classification` at the example
diff text itself. -/
theorem claim_C3_diff_line_classification_witness :
    (classifyLines
        ("diff --git a/f.ts b/f.ts\n@@ -1,2 +1,2 @@\n context\n-removed\n+added".toList)).map
        Prod.snd =
      [DiffCategory.metadata, DiffCategory.hunkHeader, DiffCategory.context,
        DiffCategory.deletion, DiffCategory.addition] :=
  (claim_C3_diff_line_classification
    ("diff --git a/f.ts b/f.ts\n@@ -1,2 +1,2 @@\n context\n-removed\n+added".toList)
    (by decide)).2.2.2.2

/-- **C8.** Whenever `openFilePath` changes — to any value, null included —
the reset effect sets `diffMode` to false, so a newly opened file always
starts in the editing view. -/
theorem claim_C8_diffMode_reset (s : EditorState) (p : Option String) :
    (step s (Event.selectFile p)).1.diffMode = false := by
  cases p <;> simp [step]

/-- **C4.** Selecting a file and then a successful content fetch with `c`
leaves `fileContent = savedContent = c`, hence not dirty, with `saveStatus`
reset to null and the loading flag cleared. -/
theorem claim_C4_load_success (s : EditorState) (p c : String) :
    (step (step s (Event.selectFile (some p))).1 (Event.loadOk c)).1.fileContent = c ∧
    (step (step s (Event.selectFile (some p))).1 (Event.loadOk c)).1.savedContent = c ∧
    isDirty (step (step s (Event.selectFile (some p))).1 (Event.loadOk c)).1 = false ∧
    (step (step s (Event.selectFile (some p))).1 (Event.loadOk c)).1.saveStatus = none ∧
    (step (step s (Event.selectFile (some p))).1 (Event.loadOk c)).1.fileLoading = false := by
  simp [step, isDirty]

/-- **C5.** Selecting a file and then a failed content fetch stores the
sentinel error buffer with empty `savedContent`, so the state reads as dirty
(the failure is visible, not treated as a clean file), and the loading flag
still clears. -/
theorem claim_C5_load_failure (s : EditorState) (p : String) :
    (step (step s (Event.selectFile (some p))).1 Event.loadErr).1.fileContent =
      errorLoadingSentinel ∧
    (step (step s (Event.selectFile (some p))).1 Event.loadErr).1.savedContent = "" ∧
    isDirty (step (step s (Event.selectFile (some p))).1 Event.loadErr).1 = true ∧
    (step (step s (Event.selectFile (some p))).1 Event.loadErr).1.fileLoading = false := by
  refine ⟨by simp [step], by simp [step], ?_, by simp [step]⟩
  simp [step, isDirty, errorLoadingSentinel]

/-- **C7.** The empty diff text is a distinct terminal case: it renders the
"No changes" indicator, and no diff text ever renders an empty classified
line list; a failed diff fetch caches the empty string, so it renders
exactly like a genuinely empty diff. -/
theorem claim_C7_empty_diff_and_fetch_failure (d : String) (hd : d ≠ "") :
    diffView "" = DiffRender.noChanges ∧
    diffView d = DiffRender.classified (classifyLines d.toList) ∧
    0 < (classifyLines d.toList).length ∧
    (∀ s : EditorState, (step s Event.diffErr).1.diffContent = "" ∧
      (step s Event.diffErr).2 = [] ∧
      diffView (step s Event.diffErr).1.diffContent = DiffRender.noChanges) := by
  refine ⟨by simp [diffView], by simp [diffView, hd], ?_, ?_⟩
  · have h := splitLines_ne_nil d.toList
    simp [classifyLines]
    exact List.length_pos.mpr h
  · intro s
    refine ⟨by simp [step], by simp [step], by simp [step, diffView]⟩

/-- Closed instance of `claim_C7_empty_diff_and_fetch_failure` at the
one-character diff text `"x"`. -/
theorem claim_C7_empty_diff_and_fetch_failure_witness :
    0 < (classifyLines ("x".toList)).length :=
  (claim_C7_empty_diff_and_fetch_failure "x" (by decide)).2.2.1

/-- **C6.** A failed write reverts `saveStatus` to dirty, leaves both buffer
and `savedContent` untouched, issues nothing; moreover write calls arise only
from a fired debounce timer, and a timer is armed only by an edit — so no
automatic retry exists. -/
theorem claim_C6_write_failure_no_retry (s : EditorState) (e : Event) :
    ((step s Event.writeErr).1.fileContent = s.fileContent ∧
     (step s Event.writeErr).1.savedContent = s.savedContent ∧
     (step s Event.writeErr).1.pendingSave = s.pendingSave ∧
     (step s Event.writeErr).2 = []) ∧
    (s.inflightWrite ≠ none →
      (step s Event.writeErr).1.saveStatus = some SaveStatus.dirty) ∧
    (∀ p v, Action.writeFile p v ∈ (step s e).2 →
      e = Event.saveTimerFire ∧
        ∃ t, s.pendingSave = some t ∧ p = t.path ∧ v = t.value) ∧
    (s.pendingSave = none → (step s e).1.pendingSave.isSome →
      ∃ v, e = Event.edit v) := by
  refine ⟨?_, ?_, ?_, ?_⟩
  · cases h : s.inflightWrite <;> simp [step, h]
  · intro hi
    cases h : s.inflightWrite with
    | none => exact absurd h hi
    | some t => simp [step, h]
  · intro p v hmem
    cases e with
    | selectFile q => cases q <;> simp [step] at hmem
    | loadOk c => simp [step] at hmem
    | loadErr => simp [step] at hmem
    | edit v' => cases h : s.openFilePath <;> simp [step, h] at hmem
    | saveTimerFire =>
      cases h : s.pendingSave with
      | none => simp [step, h] at hmem
      | some t =>
        simp only [step, h, List.mem_singleton] at hmem
        cases hmem
        exact ⟨rfl, t, rfl, rfl, rfl⟩
    | writeOk => cases h : s.inflightWrite <;> simp [step, h] at hmem
    | writeErr => cases h : s.inflightWrite <;> simp [step, h] at hmem
    | statusTimerFire => cases h : s.statusTimer <;> simp [step, h] at hmem
    | setDiffMode b =>
      cases b <;> cases h : s.openFilePath <;> simp [step, h] at hmem
      split at hmem <;> simp at hmem
    | diffOk d => simp [step] at hmem
    | diffErr => simp [step] at hmem
  · intro hps harm
    cases e with
    | selectFile q => cases q <;> simp [step, hps] at harm
    | loadOk c => simp [step, hps] at harm
    | loadErr => simp [step, hps] at harm
    | edit v' => exact ⟨v', rfl⟩
    | saveTimerFire => simp [step, hps] at harm
    | writeOk => cases h : s.inflightWrite <;> simp [step, h, hps] at harm
    | writeErr => cases h : s.inflightWrite <;> simp [step, h, hps] at harm
    | statusTimerFire => cases h : s.statusTimer <;> simp [step, h, hps] at harm
    | setDiffMode b =>
      cases b <;> cases h : s.openFilePath <;> simp [step, h, hps] at harm
      split at harm <;> simp [hps] at harm
    | diffOk d => simp [step, hps] at harm
    | diffErr => simp [step, hps] at harm

/-- Closed instance of `claim_C6_write_failure_no_retry`: a concrete state
with a write in flight reverts to dirty on failure. -/
theorem claim_C6_write_failure_no_retry_witness :
    (step
      (EditorState.mk (some "/repo/file.ts") "edited" "file content" false
        (some SaveStatus.saving) false "" false [] none
        (some (PendingSave.mk (some "/repo/file.ts") "edited" 800)) none)
      Event.writeErr).1.saveStatus = some SaveStatus.dirty :=
  (claim_C6_write_failure_no_retry
    (EditorState.mk (some "/repo/file.ts") "edited" "file content" false
      (some SaveStatus.saving) false "" false [] none
      (some (PendingSave.mk (some "/repo/file.ts") "edited" 800)) none)
    Event.writeErr).2.1 (by decide)

/-- Every timer the state holds captured a non-null `openFilePath`. -/
def timerPathsPresent (s : EditorState) : Bool :=
  (match s.pendingSave with
   | some t => t.path.isSome
   | none => true) &&
  (match s.inflightWrite with
   | some t => t.path.isSome
   | none => true)

theorem step_no_null_write (s : EditorState) (e : Event)
    (h : timerPathsPresent s = true) :
    timerPathsPresent (step s e).1 = true ∧
    ∀ v, Action.writeFile none v ∉ (step s e).2 := by
  simp only [timerPathsPresent, Bool.and_eq_true] at h
  cases e with
  | selectFile q => cases q <;> simp_all [step, timerPathsPresent]
  | loadOk c => simp_all [step, timerPathsPresent]
  | loadErr => simp_all [step, timerPathsPresent]
  | edit v' =>
    cases hq : s.openFilePath <;> simp_all [step, timerPathsPresent, hq]
  | saveTimerFire =>
    cases hp : s.pendingSave with
    | none => simp_all [step, timerPathsPresent, hp]
    | some t =>
      have h1 : t.path.isSome = true := by rw [hp] at h; exact h.1
      refine ⟨by simp_all [step, timerPathsPresent, hp], ?_⟩
      intro v hmem
      simp only [step, hp, List.mem_singleton] at hmem
      injection hmem with h2 h3
      rw [← h2] at h1
      simp at h1
  | writeOk => cases hi : s.inflightWrite <;> simp_all [step, timerPathsPresent, hi]
  | writeErr => cases hi : s.inflightWrite <;> simp_all [step, timerPathsPresent, hi]
  | statusTimerFire => cases ht : s.statusTimer <;> simp_all [step, timerPathsPresent, ht]
  | setDiffMode b =>
    have hkeep : (step s (Event.setDiffMode b)).1.pendingSave = s.pendingSave ∧
        (step s (Event.setDiffMode b)).1.inflightWrite = s.inflightWrite ∧
        ∀ p v, Action.writeFile p v ∉ (step s (Event.setDiffMode b)).2 := by
      cases b <;> cases hq : s.openFilePath <;> simp [step, hq]
      split <;> simp
    refine ⟨?_, fun v => hkeep.2.2 none v⟩
    simp only [timerPathsPresent, Bool.and_eq_true]
    rw [hkeep.1, hkeep.2.1]
    exact h
  | diffOk d => simp_all [step, timerPathsPresent]
  | diffErr => simp_all [step, timerPathsPresent]

theorem run_no_null_write (es : List Event) :
    ∀ (s : EditorState), timerPathsPresent s = true →
      ∀ v, Action.writeFile none v ∉ (run s es).2 := by
  induction es with
  | nil => intro s _ v; simp [run]
  | cons e es ih =>
    intro s hs v
    have h1 := step_no_null_write s e hs
    simp only [run, List.mem_append]
    push_neg
    exact ⟨h1.2 v, ih (step s e).1 h1.1 v⟩

/-- **C10.** An edit while no file is open cancels any pending debounce
timer, marks the buffer dirty, arms nothing and issues nothing; and over any
event sequence from a state whose timers captured non-null paths, `writeFile`
is never invoked with a null path. -/
theorem claim_C10_edit_without_open_file (s : EditorState) (v : String)
    (es : List Event) (hnull : s.openFilePath = none)
    (hinv : timerPathsPresent s = true) :
    ((step s (Event.edit v)).1.pendingSave = none ∧
     (step s (Event.edit v)).1.saveStatus = some SaveStatus.dirty ∧
     (step s (Event.edit v)).1.fileContent = v ∧
     (step s (Event.edit v)).2 = []) ∧
    (∀ w, Action.writeFile none w ∉ (run s es).2) := by
  refine ⟨by simp [step, hnull], run_no_null_write es s hinv⟩

/-- Closed instance of `claim_C10_edit_without_open_file`: editing with no
open file in the initial state arms no timer and stays dirty. -/
theorem claim_C10_edit_without_open_file_witness :
    (step (EditorState.mk none "" "" false none false "" false [] none none none)
      (Event.edit "typed")).1.pendingSave = none ∧
    (step (EditorState.mk none "" "" false none false "" false [] none none none)
      (Event.edit "typed")).1.saveStatus = some SaveStatus.dirty :=
  ⟨((claim_C10_edit_without_open_file
      (EditorState.mk none "" "" false none false "" false [] none none none)
      "typed" [] rfl (by decide)).1).1,
   ((claim_C10_edit_without_open_file
      (EditorState.mk none "" "" false none false "" false [] none none none)
      "typed" [] rfl (by decide)).1).2.1⟩

theorem run_append (es es' : List Event) : ∀ s : EditorState,
    run s (es ++ es') =
      ((run (run s es).1 es').1, (run s es).2 ++ (run (run s es).1 es').2) := by
  induction es with
  | nil => intro s; simp [run]
  | cons e es ih => intro s; simp [run, ih, List.append_assoc]

/-- Running a non-empty burst of edits from a state with an open file: no
service call is issued, the status is dirty, and exactly one timer is armed,
capturing the open path and the last edited value with the fixed delay. -/
theorem run_edits (vs : List String) (hvs : vs ≠ []) :
    ∀ (s : EditorState) (p : String), s.openFilePath = some p →
      (run s (vs.map Event.edit)).1.openFilePath = some p ∧
      (run s (vs.map Event.edit)).1.fileContent = vs.getLast hvs ∧
      (run s (vs.map Event.edit)).1.saveStatus = some SaveStatus.dirty ∧
      (run s (vs.map Event.edit)).1.pendingSave =
        some (PendingSave.mk (some p) (vs.getLast hvs) saveDebounceMs) ∧
      (run s (vs.map Event.edit)).2 = [] := by
  induction vs with
  | nil => exact absurd rfl hvs
  | cons v vs ih =>
    intro s p hp
    by_cases h : vs = []
    · subst h
      simp [run, step, hp]
    · have hopen : (step s (Event.edit v)).1.openFilePath = some p := by
        simp [step, hp]
      have hrec := ih h (step s (Event.edit v)).1 p hopen
      have hact : (step s (Event.edit v)).2 = [] := by
        simp [step, hp]
      rw [List.getLast_cons h]
      simp only [List.map_cons, run]
      refine ⟨hrec.1, hrec.2.1, hrec.2.2.1, hrec.2.2.2.1, ?_⟩
      rw [hact, hrec.2.2.2.2]
      rfl

theorem step_fire_of_pending (s : EditorState) (t : PendingSave)
    (h : s.pendingSave = some t) :
    step s Event.saveTimerFire =
      ({ s with pendingSave := none, saveStatus := some SaveStatus.saving,
                inflightWrite := some t },
        [Action.writeFile t.path t.value]) := by
  simp [step, h]

theorem step_writeOk_of_inflight (s : EditorState) (t : PendingSave)
    (h : s.inflightWrite = some t) :
    step s Event.writeOk =
      ({ s with savedContent := t.value, saveStatus := some SaveStatus.saved,
                statusTimer := some savedDisplayMs, inflightWrite := none }, []) := by
  simp [step, h]

theorem step_statusFire_of_timer (s : EditorState) (n : Nat)
    (h : s.statusTimer = some n) :
    step s Event.statusTimerFire =
      ({ s with saveStatus := none, statusTimer := none }, []) := by
  simp [step, h]

/-- **C1.** With a file open, every edit cancels the pending debounce timer
and arms a fresh one for the fixed 800 ms delay capturing the value at
arm-time; a burst of edits followed by the timer firing issues exactly one
`writeFile` for the open path with the last value, and `saveStatus` runs
dirty → saving → saved → null, the reversion by the fixed 2000 ms display
timer. -/
theorem claim_C1_debounced_autosave (s : EditorState) (p : String)
    (vs : List String) (hp : s.openFilePath = some p) (hvs : vs ≠ []) :
    saveDebounceMs = 800 ∧ savedDisplayMs = 2000 ∧
    (∀ v, (step s (Event.edit v)).1.pendingSave =
      some (PendingSave.mk (some p) v saveDebounceMs)) ∧
    (run s (vs.map Event.edit)).2 = [] ∧
    (run s (vs.map Event.edit)).1.saveStatus = some SaveStatus.dirty ∧
    (run s (vs.map Event.edit)).1.pendingSave =
      some (PendingSave.mk (some p) (vs.getLast hvs) saveDebounceMs) ∧
    (step (run s (vs.map Event.edit)).1 Event.saveTimerFire).2 =
      [Action.writeFile (some p) (vs.getLast hvs)] ∧
    (step (run s (vs.map Event.edit)).1 Event.saveTimerFire).1.saveStatus =
      some SaveStatus.saving ∧
    (step (step (run s (vs.map Event.edit)).1 Event.saveTimerFire).1
        Event.writeOk).1.saveStatus = some SaveStatus.saved ∧
    (step (step (run s (vs.map Event.edit)).1 Event.saveTimerFire).1
        Event.writeOk).1.savedContent = vs.getLast hvs ∧
    (step (step (run s (vs.map Event.edit)).1 Event.saveTimerFire).1
        Event.writeOk).1.statusTimer = some savedDisplayMs ∧
    (step (step (step (run s (vs.map Event.edit)).1 Event.saveTimerFire).1
        Event.writeOk).1 Event.statusTimerFire).1.saveStatus = none ∧
    (run s (vs.map Event.edit ++
        [Event.saveTimerFire, Event.writeOk, Event.statusTimerFire])).2 =
      [Action.writeFile (some p) (vs.getLast hvs)] := by
  obtain ⟨h1, h2, h3, h4, h5⟩ := run_edits vs hvs s p hp
  have hfire := step_fire_of_pending _ _ h4
  have efire : (step (run s (vs.map Event.edit)).1 Event.saveTimerFire).2 =
      [Action.writeFile (some p) (vs.getLast hvs)] := by
    rw [hfire]
  have sfire : (step (run s (vs.map Event.edit)).1 Event.saveTimerFire).1.saveStatus =
      some SaveStatus.saving := by
    rw [hfire]
  have ifire : (step (run s (vs.map Event.edit)).1 Event.saveTimerFire).1.inflightWrite =
      some (PendingSave.mk (some p) (vs.getLast hvs) saveDebounceMs) := by
    rw [hfire]
  have hok := step_writeOk_of_inflight _ _ ifire
  have sok : (step (step (run s (vs.map Event.edit)).1 Event.saveTimerFire).1
      Event.writeOk).1.saveStatus = some SaveStatus.saved := by
    rw [hok]
  have cok : (step (step (run s (vs.map Event.edit)).1 Event.saveTimerFire).1
      Event.writeOk).1.savedContent = vs.getLast hvs := by
    rw [hok]
  have tok : (step (step (run s (vs.map Event.edit)).1 Event.saveTimerFire).1
      Event.writeOk).1.statusTimer = some savedDisplayMs := by
    rw [hok]
  have eok : (step (step (run s (vs.map Event.edit)).1 Event.saveTimerFire).1
      Event.writeOk).2 = [] := by
    rw [hok]
  have hsf := step_statusFire_of_timer _ _ tok
  have sdone : (step (step (step (run s (vs.map Event.edit)).1 Event.saveTimerFire).1
      Event.writeOk).1 Event.statusTimerFire).1.saveStatus = none := by
    rw [hsf]
  have estatus : (step (step (step (run s (vs.map Event.edit)).1
      Event.saveTimerFire).1 Event.writeOk).1 Event.statusTimerFire).2 = [] := by
    rw [hsf]
  refine ⟨rfl, rfl, fun v => by simp [step, hp], h5, h3, h4, efire, sfire, sok, cok,
    tok, sdone, ?_⟩
  rw [run_append]
  simp only [h5, List.nil_append, run]
  rw [efire, eok, estatus]
  simp

/-- Closed instance of `claim_C1_debounced_autosave`: from a freshly loaded
file, editing to `"a"` then `"b"` and letting the window elapse issues
exactly one write with `"b"`. -/
theorem claim_C1_debounced_autosave_witness :
    (run
      (EditorState.mk (some "/repo/file.ts") "file content" "file content" false
        none false "" false [] none none none)
      (["a", "b"].map Event.edit ++
        [Event.saveTimerFire, Event.writeOk, Event.statusTimerFire])).2 =
      [Action.writeFile (some "/repo/file.ts") "b"] :=
  (claim_C1_debounced_autosave
    (EditorState.mk (some "/repo/file.ts") "file content" "file content" false
      none false "" false [] none none none)
    "/repo/file.ts" ["a", "b"] rfl (by simp)).2.2.2.2.2.2.2.2.2.2.2.2

/-- **C9.** With a working directory available, the sidebar changed-file
list is a permutation of the changed set paired with relative labels
(workdir slash stripped when present, path kept otherwise), sorted by the
relative label; the scenario `{"/repo/src/app.ts"}` under `/repo` yields the
single entry `"src/app.ts"`. -/
theorem claim_C9_relative_changed_files (C : List String) (cwd : String)
    (h : cwd ≠ "") :
    (relativeChangedFiles C cwd).Perm (C.map (fun fp => (fp, relPath cwd fp))) ∧
    List.Sorted (fun a b => a.2 ≤ b.2) (relativeChangedFiles C cwd) ∧
    (∀ e ∈ relativeChangedFiles C cwd, e.2 = relPath cwd e.1) ∧
    relativeChangedFiles ["/repo/src/app.ts"] "/repo" =
      [("/repo/src/app.ts", "src/app.ts")] := by
  have hperm : (relativeChangedFiles C cwd).Perm
      (C.map (fun fp => (fp, relPath cwd fp))) := by
    by_cases hc : C.isEmpty
    · rw [List.isEmpty_iff] at hc
      subst hc
      simp [relativeChangedFiles]
    · simp only [relativeChangedFiles, hc, h, Bool.false_or, if_neg]
      exact List.perm_insertionSort _ _
  refine ⟨hperm, ?_, ?_, by decide⟩
  · by_cases hc : C.isEmpty
    · rw [List.isEmpty_iff] at hc
      subst hc
      simp [relativeChangedFiles]
    · simp only [relativeChangedFiles, hc, h, Bool.false_or, if_neg]
      exact List.sorted_insertionSort _ _
  · intro e he
    have : e ∈ C.map (fun fp => (fp, relPath cwd fp)) := hperm.mem_iff.mp he
    obtain ⟨fp, _, rfl⟩ := List.mem_map.mp this
    rfl

/-- Closed instance of `claim_C9_relative_changed_files` at the spec's
scenario. -/
theorem claim_C9_relative_changed_files_witness :
    (relativeChangedFiles ["/repo/src/app.ts"] "/repo").Perm
      (["/repo/src/app.ts"].map (fun fp => (fp, relPath "/repo" fp))) :=
  (claim_C9_relative_changed_files ["/repo/src/app.ts"] "/repo" (by decide)).1

end Companion
